import Mathlib

/-!
Verification of the `config-file` library (src/lib.rs, src/error.rs): a
configuration-file persistence helper that resolves a serialization format
from a path's extension and dispatches load/store through per-format codecs.

The filesystem is modelled explicitly: each path is absent, present with
some contents, or access-denied (an injected I/O fault); directories are a
boolean predicate over component lists, with an injected fault set for
directory creation. The external codecs (serde_json, toml, quick_xml,
serde_yml, ron) are out of scope for the library and are abstracted as an
encode/decode pair per format with string diagnostics. Cargo feature flags
gating the codecs are a record of booleans; a disabled feature removes the
corresponding match arm, exactly as `#[cfg(feature = ...)]` does.
-/

namespace ConfigFile

/-- Cargo feature flags gating the five codec collaborators. -/
structure Features where
  json : Bool
  toml : Bool
  xml : Bool
  yaml : Bool
  ron : Bool
deriving DecidableEq

/-- `ConfigFormat` from src/lib.rs: the closed set of supported formats. -/
inductive ConfigFormat
  | Json
  | Toml
  | Xml
  | Yaml
  | Ron
deriving DecidableEq

/-- Whether the feature gating a given format is enabled in this build. -/
def Features.enabled (feats : Features) : ConfigFormat → Bool
  | ConfigFormat.Json => feats.json
  | ConfigFormat.Toml => feats.toml
  | ConfigFormat.Xml => feats.xml
  | ConfigFormat.Yaml => feats.yaml
  | ConfigFormat.Ron => feats.ron

/-- Rust `str::to_lowercase` (ASCII range, which covers every extension the
resolver compares against). -/
def toLowercase (s : String) : String := ⟨s.data.map Char.toLower⟩

/-- `ConfigFormat::from_extension`: lowercase the extension, then match it
against the recognized names; arms whose feature is disabled are compiled
out, so their extensions fall through to `None`. -/
def ConfigFormat.from_extension (feats : Features) (extension : String) :
    Option ConfigFormat :=
  if toLowercase extension = "json" then
    (if feats.json then some ConfigFormat.Json else none)
  else if toLowercase extension = "toml" then
    (if feats.toml then some ConfigFormat.Toml else none)
  else if toLowercase extension = "xml" then
    (if feats.xml then some ConfigFormat.Xml else none)
  else if toLowercase extension = "yaml" ∨ toLowercase extension = "yml" then
    (if feats.yaml then some ConfigFormat.Yaml else none)
  else if toLowercase extension = "ron" then
    (if feats.ron then some ConfigFormat.Ron else none)
  else none

/-- A filesystem path, as handed to the library: the parent directory's
components plus the final file name. -/
structure FsPath where
  dirs : List String
  file : String
deriving DecidableEq

/-- The characters after the last dot of a list, when a dot occurs. -/
def afterLastDot : List Char → Option (List Char)
  | [] => none
  | c :: cs =>
    match afterLastDot cs with
    | some e => some e
    | none => if c = '.' then some cs else none

/-- Rust `Path::extension`: the portion of the file name after the last
dot; `none` when the name is empty, contains no dot, or begins with a dot
and has no further dot (hidden file). -/
def FsPath.extension (p : FsPath) : Option String :=
  match p.file.data with
  | [] => none
  | _ :: rest =>
    match afterLastDot rest with
    | some e => some (String.mk e)
    | none => none

/-- `ConfigFormat::from_path`: take the path's extension (returning `None`
when there is none) and resolve it. -/
def ConfigFormat.from_path (feats : Features) (path : FsPath) :
    Option ConfigFormat :=
  match path.extension with
  | none => none
  | some e => ConfigFormat.from_extension feats e

/-- The kinds of `std::io::Error` the model distinguishes:
`NotFound` (the only kind given special treatment by the library) and a
permission-denied representative for every other kind. -/
inductive IOErrorKind
  | notFound
  | permissionDenied
deriving DecidableEq

/-- `TomlError` from src/error.rs. -/
inductive TomlError
  | DeserializationError (msg : String)
  | SerializationError (msg : String)
deriving DecidableEq

/-- `XmlError` from src/error.rs. -/
inductive XmlError
  | DeserializationError (msg : String)
  | SerializationError (msg : String)
deriving DecidableEq

/-- `error::Error` from src/error.rs; each codec's diagnostic is abstracted
to a string. -/
inductive Error
  | FileAccess (e : IOErrorKind)
  | FileExists
  | Json (msg : String)
  | Toml (e : TomlError)
  | Xml (e : XmlError)
  | Yaml (msg : String)
  | Ron (msg : String)
  | UnsupportedFormat
deriving DecidableEq

/-- State of one path in the modelled filesystem: absent, present with
given contents, or readable/writable only with a permission error (the
injected fault standing for every non-NotFound I/O failure). -/
inductive FileState
  | absent
  | present (content : String)
  | denied
deriving DecidableEq

/-- The modelled filesystem: per-path file states, the set of existing
directories (as component lists), and an injected fault set making
directory creation fail. -/
structure FS where
  files : FsPath → FileState
  dirs : List String → Bool
  mkdirFails : List String → Bool

/-- Replace the state of one path. -/
def setFile (fs : FS) (p : FsPath) (st : FileState) : FS :=
  { fs with files := fun q => if q = p then st else fs.files q }

/-- `File::open` followed by reading the handle to the end (also
`std::fs::read_to_string`): the file's full contents, or the I/O error. -/
def open_file (fs : FS) (p : FsPath) : Except IOErrorKind String :=
  match fs.files p with
  | FileState.present c => Except.ok c
  | FileState.absent => Except.error IOErrorKind.notFound
  | FileState.denied => Except.error IOErrorKind.permissionDenied

/-- The `not_found_to_none!` macro from src/lib.rs: `Ok` becomes
`Ok(Some _)`, a NotFound error becomes `Ok(None)`, every other error is
passed through. -/
def not_found_to_none {α : Type} (r : Except IOErrorKind α) :
    Except IOErrorKind (Option α) :=
  match r with
  | Except.ok c => Except.ok (some c)
  | Except.error e =>
    if e = IOErrorKind.notFound then Except.ok none else Except.error e

/-- The external codec collaborators: one decode/encode pair per format,
with string diagnostics. The library owns no parsing logic itself. -/
structure Codec (α : Type) where
  decode : ConfigFormat → String → Except String α
  encode : ConfigFormat → α → Except String String

/-- `LoadConfigFile::load_with_specific_format` (blanket impl for
deserializable types): open/read the file, mapping NotFound to `Ok(None)`,
then decode via the format's codec, wrapping a decode failure in that
format's error constructor. A branch whose feature is disabled is compiled
out, leaving the `_ => Err(UnsupportedFormat)` fallback. -/
def load_with_specific_format {α : Type} (codec : Codec α) (feats : Features)
    (fs : FS) (path : FsPath) (config_type : ConfigFormat) :
    Except Error (Option α) :=
  match config_type with
  | ConfigFormat.Json =>
    if feats.json then
      match not_found_to_none (open_file fs path) with
      | Except.error e => Except.error (Error.FileAccess e)
      | Except.ok none => Except.ok none
      | Except.ok (some c) =>
        match codec.decode ConfigFormat.Json c with
        | Except.ok v => Except.ok (some v)
        | Except.error m => Except.error (Error.Json m)
    else Except.error Error.UnsupportedFormat
  | ConfigFormat.Toml =>
    if feats.toml then
      match not_found_to_none (open_file fs path) with
      | Except.error e => Except.error (Error.FileAccess e)
      | Except.ok none => Except.ok none
      | Except.ok (some c) =>
        match codec.decode ConfigFormat.Toml c with
        | Except.ok v => Except.ok (some v)
        | Except.error m =>
          Except.error (Error.Toml (TomlError.DeserializationError m))
    else Except.error Error.UnsupportedFormat
  | ConfigFormat.Xml =>
    if feats.xml then
      match not_found_to_none (open_file fs path) with
      | Except.error e => Except.error (Error.FileAccess e)
      | Except.ok none => Except.ok none
      | Except.ok (some c) =>
        match codec.decode ConfigFormat.Xml c with
        | Except.ok v => Except.ok (some v)
        | Except.error m =>
          Except.error (Error.Xml (XmlError.DeserializationError m))
    else Except.error Error.UnsupportedFormat
  | ConfigFormat.Yaml =>
    if feats.yaml then
      match not_found_to_none (open_file fs path) with
      | Except.error e => Except.error (Error.FileAccess e)
      | Except.ok none => Except.ok none
      | Except.ok (some c) =>
        match codec.decode ConfigFormat.Yaml c with
        | Except.ok v => Except.ok (some v)
        | Except.error m => Except.error (Error.Yaml m)
    else Except.error Error.UnsupportedFormat
  | ConfigFormat.Ron =>
    if feats.ron then
      match not_found_to_none (open_file fs path) with
      | Except.error e => Except.error (Error.FileAccess e)
      | Except.ok none => Except.ok none
      | Except.ok (some c) =>
        match codec.decode ConfigFormat.Ron c with
        | Except.ok v => Except.ok (some v)
        | Except.error m => Except.error (Error.Ron m)
    else Except.error Error.UnsupportedFormat

/-- `LoadConfigFile::load`: resolve the format from the path (failing with
`UnsupportedFormat`), then defer to `load_with_specific_format`. -/
def load {α : Type} (codec : Codec α) (feats : Features) (fs : FS)
    (path : FsPath) : Except Error (Option α) :=
  match ConfigFormat.from_path feats path with
  | none => Except.error Error.UnsupportedFormat
  | some config_type => load_with_specific_format codec feats fs path config_type

/-- `LoadConfigFile::load_or_default`: `load`, with `Ok(None)` replaced by
the type's default value (`dflt` models `Default::default()`). -/
def load_or_default {α : Type} (codec : Codec α) (feats : Features) (dflt : α)
    (fs : FS) (path : FsPath) : Except Error α :=
  (load codec feats fs path).map (fun o => o.getD dflt)

/-- `std::fs::create_dir_all` on the parent components: creates the
directory and every ancestor; the injected fault set models the creation
failing with an I/O error. -/
def create_dir_all (fs : FS) (d : List String) :
    Except IOErrorKind Unit × FS :=
  if fs.mkdirFails d then (Except.error IOErrorKind.permissionDenied, fs)
  else (Except.ok (),
    { fs with dirs := fun d2 => fs.dirs d2 || d2.isPrefixOf d })

/-- `OpenOptions::new().write(true).create(true).truncate(true).open(p)`:
truncate or create the file, failing with NotFound when the parent
directory is missing and with the injected fault when access is denied. -/
def open_trunc (fs : FS) (p : FsPath) : Except IOErrorKind Unit × FS :=
  if fs.files p = FileState.denied then
    (Except.error IOErrorKind.permissionDenied, fs)
  else if fs.dirs p.dirs then
    (Except.ok (), setFile fs p (FileState.present ""))
  else (Except.error IOErrorKind.notFound, fs)

/-- `open_write_file` from src/lib.rs: create the parent directory chain,
then open the file for writing with truncation; both failures surface as
`Error::FileAccess`. -/
def open_write_file (fs : FS) (p : FsPath) : Except Error Unit × FS :=
  match create_dir_all fs p.dirs with
  | (Except.error e, fs1) => (Except.error (Error.FileAccess e), fs1)
  | (Except.ok _, fs1) =>
    match open_trunc fs1 p with
    | (Except.error e, fs2) => (Except.error (Error.FileAccess e), fs2)
    | (Except.ok _, fs2) => (Except.ok (), fs2)

/-- `Write::write_all` on the freshly truncated handle: the file ends up
holding exactly the written string. -/
def write_all (fs : FS) (p : FsPath) (s : String) : FS :=
  setFile fs p (FileState.present s)

/-- `std::fs::write`: create or entirely replace the file with the given
contents; performs no parent-directory creation, so a missing parent
yields NotFound. -/
def fs_write (fs : FS) (p : FsPath) (s : String) :
    Except IOErrorKind Unit × FS :=
  if fs.files p = FileState.denied then
    (Except.error IOErrorKind.permissionDenied, fs)
  else if fs.dirs p.dirs then
    (Except.ok (), setFile fs p (FileState.present s))
  else (Except.error IOErrorKind.notFound, fs)

/-- `StoreConfigFile::store_with_specific_format` (blanket impl for
serializable types). The Json/Toml/Yaml/Ron branches evaluate
`open_write_file(path)?` first (in Rust the method receiver and the
`to_writer` destination are evaluated before the record is encoded), so
the target is truncated before encoding; a partial stream written by a
failing `to_writer` is abstracted to the empty prefix. The Xml branch
instead encodes to a string first and then calls `std::fs::write`. -/
def store_with_specific_format {α : Type} (codec : Codec α) (feats : Features)
    (v : α) (path : FsPath) (config_type : ConfigFormat) (fs : FS) :
    Except Error Unit × FS :=
  match config_type with
  | ConfigFormat.Json =>
    if feats.json then
      match open_write_file fs path with
      | (Except.error e, fs1) => (Except.error e, fs1)
      | (Except.ok _, fs1) =>
        match codec.encode ConfigFormat.Json v with
        | Except.error m => (Except.error (Error.Json m), fs1)
        | Except.ok s => (Except.ok (), write_all fs1 path s)
    else (Except.error Error.UnsupportedFormat, fs)
  | ConfigFormat.Toml =>
    if feats.toml then
      match open_write_file fs path with
      | (Except.error e, fs1) => (Except.error e, fs1)
      | (Except.ok _, fs1) =>
        match codec.encode ConfigFormat.Toml v with
        | Except.error m =>
          (Except.error (Error.Toml (TomlError.SerializationError m)), fs1)
        | Except.ok s => (Except.ok (), write_all fs1 path s)
    else (Except.error Error.UnsupportedFormat, fs)
  | ConfigFormat.Xml =>
    if feats.xml then
      match codec.encode ConfigFormat.Xml v with
      | Except.error m =>
        (Except.error (Error.Xml (XmlError.SerializationError m)), fs)
      | Except.ok s =>
        match fs_write fs path s with
        | (Except.error e, fs1) => (Except.error (Error.FileAccess e), fs1)
        | (Except.ok _, fs1) => (Except.ok (), fs1)
    else (Except.error Error.UnsupportedFormat, fs)
  | ConfigFormat.Yaml =>
    if feats.yaml then
      match open_write_file fs path with
      | (Except.error e, fs1) => (Except.error e, fs1)
      | (Except.ok _, fs1) =>
        match codec.encode ConfigFormat.Yaml v with
        | Except.error m => (Except.error (Error.Yaml m), fs1)
        | Except.ok s => (Except.ok (), write_all fs1 path s)
    else (Except.error Error.UnsupportedFormat, fs)
  | ConfigFormat.Ron =>
    if feats.ron then
      match open_write_file fs path with
      | (Except.error e, fs1) => (Except.error e, fs1)
      | (Except.ok _, fs1) =>
        match codec.encode ConfigFormat.Ron v with
        | Except.error m => (Except.error (Error.Ron m), fs1)
        | Except.ok s => (Except.ok (), write_all fs1 path s)
    else (Except.error Error.UnsupportedFormat, fs)

/-- `StoreConfigFile::store`: resolve the format from the path (failing
with `UnsupportedFormat`), then defer to `store_with_specific_format`. -/
def store {α : Type} (codec : Codec α) (feats : Features) (v : α)
    (path : FsPath) (fs : FS) : Except Error Unit × FS :=
  match ConfigFormat.from_path feats path with
  | none => (Except.error Error.UnsupportedFormat, fs)
  | some config_type => store_with_specific_format codec feats v path config_type fs

/-- Rust `Path::exists` (a successful metadata call; a permission-denied
open still counts as existing). -/
def path_exists (fs : FS) (p : FsPath) : Bool :=
  match fs.files p with
  | FileState.absent => false
  | _ => true

/-- `StoreConfigFile::store_without_overwrite`: fail with `FileExists`
when the path exists, otherwise delegate to `store`. -/
def store_without_overwrite {α : Type} (codec : Codec α) (feats : Features)
    (v : α) (path : FsPath) (fs : FS) : Except Error Unit × FS :=
  if path_exists fs path then (Except.error Error.FileExists, fs)
  else store codec feats v path fs

/-- `Storable::store_with_specific_format`: calls the base dispatcher with
`self.path()`; `pathOf` models the struct's `path()` method. -/
def Storable.store_with_specific_format {α : Type} (codec : Codec α)
    (feats : Features) (pathOf : α → FsPath) (v : α)
    (config_type : ConfigFormat) (fs : FS) : Except Error Unit × FS :=
  ConfigFile.store_with_specific_format codec feats v (pathOf v) config_type fs

/-- `Storable::store`: calls the base dispatcher with `self.path()`. -/
def Storable.store {α : Type} (codec : Codec α) (feats : Features)
    (pathOf : α → FsPath) (v : α) (fs : FS) : Except Error Unit × FS :=
  ConfigFile.store codec feats v (pathOf v) fs

/-- `Storable::store_without_overwrite`: calls the base dispatcher with
`self.path()`. -/
def Storable.store_without_overwrite {α : Type} (codec : Codec α)
    (feats : Features) (pathOf : α → FsPath) (v : α) (fs : FS) :
    Except Error Unit × FS :=
  ConfigFile.store_without_overwrite codec feats v (pathOf v) fs

/-- The error constructor each store branch wraps its codec's
serialization failure in. -/
def storeSerError : ConfigFormat → String → Error
  | ConfigFormat.Json, m => Error.Json m
  | ConfigFormat.Toml, m => Error.Toml (TomlError.SerializationError m)
  | ConfigFormat.Xml, m => Error.Xml (XmlError.SerializationError m)
  | ConfigFormat.Yaml, m => Error.Yaml m
  | ConfigFormat.Ron, m => Error.Ron m

/-- A build with all five codec features enabled. -/
def allFeatures : Features := ⟨true, true, true, true, true⟩

/-- A sample record type and codec for concrete runs: decoding only
recognizes the string "42". -/
def natCodec : Codec Nat :=
  { decode := fun _ s => if s = "42" then Except.ok 42 else Except.error "bad input",
    encode := fun _ n => if n = 42 then Except.ok "42" else Except.error "unencodable" }

/-- A codec whose encoder and decoder always fail. -/
def failCodec : Codec Nat :=
  { decode := fun _ _ => Except.error "boom",
    encode := fun _ _ => Except.error "boom" }

/-- The path `config.toml` in the current directory. -/
def pToml : FsPath := ⟨[], "config.toml"⟩

/-- The path `a/b/config.xml`. -/
def pXml : FsPath := ⟨["a", "b"], "config.xml"⟩

/-- The path `a/b/config.json`. -/
def pJson : FsPath := ⟨["a", "b"], "config.json"⟩

/-- A path with an unrecognized extension. -/
def pUnknown : FsPath := ⟨[], "config.unknownext"⟩

/-- An empty filesystem: no files, only the current directory. -/
def fsEmpty : FS :=
  { files := fun _ => FileState.absent,
    dirs := fun d => d.isEmpty,
    mkdirFails := fun _ => false }

/-- A filesystem where `config.toml` holds "old" and all directories exist. -/
def fsOld : FS :=
  { files := fun q => if q = pToml then FileState.present "old" else FileState.absent,
    dirs := fun _ => true,
    mkdirFails := fun _ => false }

/-- A filesystem where opening `config.toml` is denied. -/
def fsDenied : FS :=
  { files := fun q => if q = pToml then FileState.denied else FileState.absent,
    dirs := fun _ => true,
    mkdirFails := fun _ => false }

/-- A filesystem where a file sits at `config.unknownext`. -/
def fsUnknownExisting : FS :=
  { files := fun q => if q = pUnknown then FileState.present "old" else FileState.absent,
    dirs := fun _ => true,
    mkdirFails := fun _ => false }

/-- `Char.ofNat` of a valid codepoint has that codepoint as `toNat`. -/
theorem toNat_ofNat_valid {n : Nat} (h : n.isValidChar) :
    (Char.ofNat n).toNat = n := by
  rw [Char.ofNat, dif_pos h]
  simp [Char.ofNatAux, Char.toNat, UInt32.toNat, BitVec.toNat_ofNatLt]

/-- `Char.toLower` is idempotent. -/
theorem char_toLower_idem (c : Char) : c.toLower.toLower = c.toLower := by
  simp only [Char.toLower]
  by_cases h : c.toNat ≥ 65 ∧ c.toNat ≤ 90
  · rw [if_pos h]
    have hv : Nat.isValidChar (c.toNat + 32) := Or.inl (by omega)
    rw [if_neg (by rw [toNat_ofNat_valid hv]; omega)]
  · rw [if_neg h, if_neg h]

/-- Lowercasing a string is idempotent. -/
theorem toLowercase_idem (s : String) :
    toLowercase (toLowercase s) = toLowercase s := by
  simp [toLowercase, List.map_map, Function.comp_def, char_toLower_idem]

/-- A successful extension resolution only returns formats whose feature
is enabled. -/
theorem enabled_of_from_extension {feats : Features} {e : String}
    {t : ConfigFormat} (h : ConfigFormat.from_extension feats e = some t) :
    feats.enabled t = true := by
  simp only [ConfigFormat.from_extension] at h
  repeat' split at h
  all_goals cases h
  all_goals simp_all [Features.enabled]

/-- A successful path resolution only returns formats whose feature is
enabled. -/
theorem enabled_of_from_path {feats : Features} {p : FsPath}
    {t : ConfigFormat} (h : ConfigFormat.from_path feats p = some t) :
    feats.enabled t = true := by
  unfold ConfigFormat.from_path at h
  split at h
  · exact absurd h (by simp)
  · exact enabled_of_from_extension h

/-- Every list is a prefix of itself (boolean version). -/
theorem isPrefixOf_self (l : List String) : l.isPrefixOf l = true := by
  induction l with
  | nil => rfl
  | cons a t ih => simp [List.isPrefixOf, ih]

/-- Claim C1: for every record type and enabled format,
`load_with_specific_format` on an absent file returns the explicit
"no value" result `Ok(None)`; any other I/O failure on open/read (the
permission-denied fault) propagates as `FileAccess`; and once the format
resolves, `load` is exactly `load_with_specific_format`, so the same holds
for `load`. Only the not-found condition maps to "no value". -/
theorem C1_missing_file_policy {α : Type} (codec : Codec α) (feats : Features)
    (fs : FS) (p : FsPath) (t : ConfigFormat)
    (ht : feats.enabled t = true) :
    (fs.files p = FileState.absent →
      load_with_specific_format codec feats fs p t = Except.ok none) ∧
    (fs.files p = FileState.denied →
      load_with_specific_format codec feats fs p t =
        Except.error (Error.FileAccess IOErrorKind.permissionDenied)) ∧
    (ConfigFormat.from_path feats p = some t →
      load codec feats fs p = load_with_specific_format codec feats fs p t) := by
  refine ⟨fun h => ?_, fun h => ?_, fun h => ?_⟩
  · cases t <;>
      simp_all [Features.enabled, load_with_specific_format, open_file,
        not_found_to_none]
  · cases t <;>
      simp_all [Features.enabled, load_with_specific_format, open_file,
        not_found_to_none]
  · simp [load, h]

/-- Concrete run of C1: with every feature on, loading the absent
`config.toml` gives `Ok(None)`, and loading it when access is denied gives
`FileAccess`. -/
theorem C1_missing_file_policy_witness :
    load_with_specific_format natCodec allFeatures fsEmpty pToml
      ConfigFormat.Toml = Except.ok none ∧
    load_with_specific_format natCodec allFeatures fsDenied pToml
      ConfigFormat.Toml =
      Except.error (Error.FileAccess IOErrorKind.permissionDenied) :=
  ⟨(C1_missing_file_policy natCodec allFeatures fsEmpty pToml
      ConfigFormat.Toml rfl).1 rfl,
   (C1_missing_file_policy natCodec allFeatures fsDenied pToml
      ConfigFormat.Toml rfl).2.1 rfl⟩

/-- Claim C4: `store_without_overwrite` on an existing path fails
immediately with `FileExists` and returns the filesystem untouched (no
open, truncate, or write); on an absent path it is exactly `store`. -/
theorem C4_no_overwrite {α : Type} (codec : Codec α) (feats : Features)
    (v : α) (p : FsPath) (fs : FS) :
    (path_exists fs p = true →
      store_without_overwrite codec feats v p fs =
        (Except.error Error.FileExists, fs)) ∧
    (path_exists fs p = false →
      store_without_overwrite codec feats v p fs = store codec feats v p fs) := by
  constructor <;> intro h <;> simp [store_without_overwrite, h]

/-- Concrete run of C4: the pre-existing `config.toml` holding "old" makes
`store_without_overwrite` fail with `FileExists`, leaving the contents
unchanged. -/
theorem C4_no_overwrite_witness :
    store_without_overwrite natCodec allFeatures 42 pToml fsOld =
      (Except.error Error.FileExists, fsOld) ∧
    fsOld.files pToml = FileState.present "old" :=
  ⟨(C4_no_overwrite natCodec allFeatures 42 pToml fsOld).1 rfl, rfl⟩

/-- Claim C5: `load_or_default` returns the loaded record when `load`
yields one, the default value when `load` yields "no value" (file absent),
and propagates every other failure of `load` unchanged. -/
theorem C5_load_or_default {α : Type} (codec : Codec α) (feats : Features)
    (dflt : α) (fs : FS) (p : FsPath) :
    (∀ r : α, load codec feats fs p = Except.ok (some r) →
      load_or_default codec feats dflt fs p = Except.ok r) ∧
    (load codec feats fs p = Except.ok none →
      load_or_default codec feats dflt fs p = Except.ok dflt) ∧
    (∀ e : Error, load codec feats fs p = Except.error e →
      load_or_default codec feats dflt fs p = Except.error e) := by
  refine ⟨fun r h => ?_, fun h => ?_, fun e h => ?_⟩ <;>
    simp [load_or_default, h, Except.map]

/-- Concrete run of C5: on the absent `config.toml`, `load` yields
`Ok(None)` and `load_or_default` returns the supplied default. -/
theorem C5_load_or_default_witness :
    load_or_default natCodec allFeatures 7 fsEmpty pToml = Except.ok 7 :=
  (C5_load_or_default natCodec allFeatures 7 fsEmpty pToml).2.1 rfl

/-- Claim C6: when the path's extension resolves to no enabled format,
`load` and `store` fail with `UnsupportedFormat` for every filesystem,
and `store` returns the filesystem untouched: resolution happens first and
no file I/O is performed. -/
theorem C6_unsupported_format {α : Type} (codec : Codec α) (feats : Features)
    (p : FsPath) (h : ConfigFormat.from_path feats p = none) :
    (∀ fs : FS, load codec feats fs p = Except.error Error.UnsupportedFormat) ∧
    (∀ (fs : FS) (v : α),
      store codec feats v p fs = (Except.error Error.UnsupportedFormat, fs)) := by
  constructor
  · intro fs
    simp [load, h]
  · intro fs v
    simp [store, h]

/-- Concrete run of C6: `config.unknownext` makes both `load` and `store`
fail with `UnsupportedFormat` on the empty filesystem. -/
theorem C6_unsupported_format_witness :
    load natCodec allFeatures fsEmpty pUnknown =
      Except.error Error.UnsupportedFormat ∧
    store natCodec allFeatures 42 pUnknown fsEmpty =
      (Except.error Error.UnsupportedFormat, fsEmpty) :=
  ⟨(C6_unsupported_format natCodec allFeatures pUnknown rfl).1 fsEmpty,
   (C6_unsupported_format natCodec allFeatures pUnknown rfl).2 fsEmpty 42⟩

/-- Claim C9: each `Storable` operation equals the corresponding base
dispatcher operation applied to the record and the path returned by its
`path()` method; the convenience layer adds no semantics. -/
theorem C9_storable_refines_dispatcher {α : Type} (codec : Codec α)
    (feats : Features) (pathOf : α → FsPath) (v : α) (t : ConfigFormat)
    (fs : FS) :
    Storable.store_with_specific_format codec feats pathOf v t fs =
      store_with_specific_format codec feats v (pathOf v) t fs ∧
    Storable.store codec feats pathOf v fs =
      store codec feats v (pathOf v) fs ∧
    Storable.store_without_overwrite codec feats pathOf v fs =
      store_without_overwrite codec feats v (pathOf v) fs :=
  ⟨rfl, rfl, rfl⟩

/-- Claim C10: `store_without_overwrite` checks existence before format
resolution, so an existing path yields `FileExists` even when the
extension resolves to no format: `FileExists` takes precedence over
`UnsupportedFormat`. -/
theorem C10_exists_precedes_format {α : Type} (codec : Codec α)
    (feats : Features) (v : α) (p : FsPath) (fs : FS)
    (hex : path_exists fs p = true)
    (_hfmt : ConfigFormat.from_path feats p = none) :
    store_without_overwrite codec feats v p fs =
      (Except.error Error.FileExists, fs) := by
  simp [store_without_overwrite, hex]

/-- Concrete run of C10: a pre-existing `config.unknownext` makes
`store_without_overwrite` fail with `FileExists`, not
`UnsupportedFormat`. -/
theorem C10_exists_precedes_format_witness :
    store_without_overwrite natCodec allFeatures 42 pUnknown
      fsUnknownExisting = (Except.error Error.FileExists, fsUnknownExisting) :=
  C10_exists_precedes_format natCodec allFeatures 42 pUnknown
    fsUnknownExisting rfl rfl

/-- Claim C7: extension resolution lowercases its argument before matching
(hence is case-insensitive), maps each of the five recognized extensions
to its format exactly when the matching codec feature is enabled (a
disabled format's extension resolves as unrecognized), yields `none` on
every other extension, and yields `none` on a path without an extension.
The resolver is a Lean function, hence pure and side-effect free. -/
theorem C7_resolver_spec (feats : Features) :
    (∀ extension : String, ConfigFormat.from_extension feats extension =
      ConfigFormat.from_extension feats (toLowercase extension)) ∧
    ConfigFormat.from_extension feats "json" =
      (if feats.json then some ConfigFormat.Json else none) ∧
    ConfigFormat.from_extension feats "toml" =
      (if feats.toml then some ConfigFormat.Toml else none) ∧
    ConfigFormat.from_extension feats "xml" =
      (if feats.xml then some ConfigFormat.Xml else none) ∧
    ConfigFormat.from_extension feats "yaml" =
      (if feats.yaml then some ConfigFormat.Yaml else none) ∧
    ConfigFormat.from_extension feats "yml" =
      (if feats.yaml then some ConfigFormat.Yaml else none) ∧
    ConfigFormat.from_extension feats "ron" =
      (if feats.ron then some ConfigFormat.Ron else none) ∧
    (∀ extension : String,
      toLowercase extension ∉
        (["json", "toml", "xml", "yaml", "yml", "ron"] : List String) →
      ConfigFormat.from_extension feats extension = none) ∧
    (∀ p : FsPath, p.extension = none →
      ConfigFormat.from_path feats p = none) := by
  refine ⟨fun ext => ?_, ?_, ?_, ?_, ?_, ?_, ?_, fun ext h => ?_, fun p h => ?_⟩
  · simp only [ConfigFormat.from_extension, toLowercase_idem]
  · simp only [ConfigFormat.from_extension]
    rw [if_pos (by decide)]
  · simp only [ConfigFormat.from_extension]
    rw [if_neg (by decide), if_pos (by decide)]
  · simp only [ConfigFormat.from_extension]
    rw [if_neg (by decide), if_neg (by decide), if_pos (by decide)]
  · simp only [ConfigFormat.from_extension]
    rw [if_neg (by decide), if_neg (by decide), if_neg (by decide),
      if_pos (by decide)]
  · simp only [ConfigFormat.from_extension]
    rw [if_neg (by decide), if_neg (by decide), if_neg (by decide),
      if_pos (by decide)]
  · simp only [ConfigFormat.from_extension]
    rw [if_neg (by decide), if_neg (by decide), if_neg (by decide),
      if_neg (by decide), if_pos (by decide)]
  · simp only [List.mem_cons, List.mem_singleton, not_or] at h
    obtain ⟨h1, h2, h3, h4, h5, h6⟩ := h
    simp [ConfigFormat.from_extension, h1, h2, h3, h4, h5, h6]
  · simp [ConfigFormat.from_path, h]

/-- Concrete run of C7: "TOML" resolves as its lowercase form does, and an
unknown extension resolves to nothing. -/
theorem C7_resolver_spec_witness :
    ConfigFormat.from_extension allFeatures "TOML" =
      ConfigFormat.from_extension allFeatures (toLowercase "TOML") ∧
    ConfigFormat.from_extension allFeatures "unknownext" = none :=
  ⟨(C7_resolver_spec allFeatures).1 "TOML",
   (C7_resolver_spec allFeatures).2.2.2.2.2.2.2.1 "unknownext" (by decide)⟩

/-- Claim C2 counterexample: with every feature enabled, storing to
`a/b/config.xml` (whose extension resolves to Xml) on the empty
filesystem, where directory `a/b` does not exist, fails with
`FileAccess(NotFound)` instead of creating the directories: the Xml
branch writes through `std::fs::write`, which creates no parent
directories. -/
theorem C2_counterexample :
    ConfigFormat.from_path allFeatures pXml = some ConfigFormat.Xml ∧
    (store natCodec allFeatures 42 pXml fsEmpty).1 =
      Except.error (Error.FileAccess IOErrorKind.notFound) := by
  exact ⟨by decide, rfl⟩

/-- Claim C2 amended: for the Json, Toml, Yaml and Ron branches,
`store_with_specific_format` first creates the parent directory chain —
a creation failure surfaces as `FileAccess`, and otherwise the directory
exists afterwards and the store succeeds whenever encoding does — while
the Xml branch performs no directory creation and fails with
`FileAccess(NotFound)` when the parent directory is missing. -/
theorem C2_amended {α : Type} (codec : Codec α) (feats : Features) (v : α)
    (p : FsPath) (fs : FS) (t : ConfigFormat) (ht : feats.enabled t = true) :
    (t ≠ ConfigFormat.Xml → fs.mkdirFails p.dirs = true →
      store_with_specific_format codec feats v p t fs =
        (Except.error (Error.FileAccess IOErrorKind.permissionDenied), fs)) ∧
    (t ≠ ConfigFormat.Xml → fs.mkdirFails p.dirs = false →
      fs.files p ≠ FileState.denied →
      ((store_with_specific_format codec feats v p t fs).2.dirs p.dirs = true ∧
       ∀ s : String, codec.encode t v = Except.ok s →
         (store_with_specific_format codec feats v p t fs).1 =
           Except.ok ())) ∧
    (t = ConfigFormat.Xml → fs.dirs p.dirs = false →
      fs.files p ≠ FileState.denied →
      ∀ s : String, codec.encode t v = Except.ok s →
        store_with_specific_format codec feats v p t fs =
          (Except.error (Error.FileAccess IOErrorKind.notFound), fs)) := by
  refine ⟨fun hx hmk => ?_, fun hx hmk hdn => ?_, fun hx hdir hdn s henc => ?_⟩
  · cases t <;>
      simp_all [Features.enabled, store_with_specific_format, open_write_file,
        create_dir_all]
  · cases t
    case Xml => exact absurd rfl hx
    all_goals (
      simp_all only [Features.enabled]
      constructor
      · simp_all [store_with_specific_format, open_write_file,
          create_dir_all, open_trunc, setFile, write_all]
        split <;> simp [isPrefixOf_self]
      · intro s henc
        simp_all [store_with_specific_format, open_write_file,
          create_dir_all, open_trunc, setFile, write_all, isPrefixOf_self])
  · subst hx
    simp_all [Features.enabled, store_with_specific_format, fs_write, henc]

/-- Concrete run of the amended C2: the Xml branch fails on a missing
parent directory, while the Json branch creates `a/b` on the same empty
filesystem. -/
theorem C2_amended_witness :
    store_with_specific_format natCodec allFeatures 42 pXml
      ConfigFormat.Xml fsEmpty =
      (Except.error (Error.FileAccess IOErrorKind.notFound), fsEmpty) ∧
    (store_with_specific_format natCodec allFeatures 42 pJson
      ConfigFormat.Json fsEmpty).2.dirs pJson.dirs = true :=
  ⟨(C2_amended natCodec allFeatures 42 pXml fsEmpty ConfigFormat.Xml
      rfl).2.2 rfl rfl (by decide) "42" rfl,
   ((C2_amended natCodec allFeatures 42 pJson fsEmpty ConfigFormat.Json
      rfl).2.1 (by decide) rfl (by decide)).1⟩

/-- Claim C3 counterexample: `config.toml` initially holds "old"; storing
through the Toml branch with a failing encoder propagates the typed
serialization error, but because the branch evaluates
`open_write_file(path)?` before encoding, the file has already been opened
with truncation: its prior content is replaced by the empty string. -/
theorem C3_counterexample :
    fsOld.files pToml = FileState.present "old" ∧
    (store_with_specific_format failCodec allFeatures 0 pToml
      ConfigFormat.Toml fsOld).1 =
      Except.error (Error.Toml (TomlError.SerializationError "boom")) ∧
    ((store_with_specific_format failCodec allFeatures 0 pToml
      ConfigFormat.Toml fsOld).2).files pToml = FileState.present "" :=
  ⟨rfl, rfl, by decide⟩

/-- Claim C3 amended: a serialization failure propagates unchanged as the
format's typed error, but in the Json, Toml, Yaml and Ron branches the
target file is opened with truncation before encoding, so the failure
leaves the file truncated to empty (the prior content is lost); only the
Xml branch, which encodes before touching the file, leaves the target
untouched. -/
theorem C3_amended {α : Type} (codec : Codec α) (feats : Features) (v : α)
    (p : FsPath) (fs : FS) (t : ConfigFormat) (m : String)
    (ht : feats.enabled t = true)
    (henc : codec.encode t v = Except.error m) :
    (t ≠ ConfigFormat.Xml → fs.mkdirFails p.dirs = false →
      fs.files p ≠ FileState.denied →
      (store_with_specific_format codec feats v p t fs).1 =
        Except.error (storeSerError t m) ∧
      ((store_with_specific_format codec feats v p t fs).2).files p =
        FileState.present "") ∧
    (t = ConfigFormat.Xml →
      store_with_specific_format codec feats v p t fs =
        (Except.error (storeSerError t m), fs)) := by
  refine ⟨fun hx hmk hdn => ?_, fun hx => ?_⟩
  · cases t
    case Xml => exact absurd rfl hx
    all_goals
      simp_all [Features.enabled, store_with_specific_format, storeSerError,
        open_write_file, create_dir_all, open_trunc, setFile, write_all,
        isPrefixOf_self]
  · subst hx
    simp_all [Features.enabled, store_with_specific_format, storeSerError]

/-- Concrete run of the amended C3: the failing Toml store yields the
typed serialization error and leaves `config.toml` truncated to empty. -/
theorem C3_amended_witness :
    (store_with_specific_format failCodec allFeatures 0 pToml
      ConfigFormat.Toml fsOld).1 =
      Except.error (storeSerError ConfigFormat.Toml "boom") ∧
    ((store_with_specific_format failCodec allFeatures 0 pToml
      ConfigFormat.Toml fsOld).2).files pToml = FileState.present "" :=
  (C3_amended failCodec allFeatures 0 pToml fsOld ConfigFormat.Toml "boom"
    rfl rfl).1 (by decide) rfl (by decide)

/-- After a successful `store_with_specific_format`, the target file holds
exactly the encoder's output. -/
theorem store_ok_files {α : Type} {codec : Codec α} {feats : Features}
    {v : α} {p : FsPath} {t : ConfigFormat} {fs fs2 : FS} {s : String}
    (henc : codec.encode t v = Except.ok s)
    (hstore : store_with_specific_format codec feats v p t fs =
      (Except.ok (), fs2)) :
    fs2.files p = FileState.present s := by
  cases t <;>
    simp only [store_with_specific_format] at hstore <;>
    split at hstore
  case Xml.isTrue =>
    rw [henc] at hstore
    simp only [fs_write] at hstore
    split at hstore
    · simp at hstore
    · injection hstore with h1 h2
      subst h2
      rename_i heq
      split at heq
      · simp at heq
      · split at heq
        · injection heq with g1 g2
          subst g2
          simp [setFile]
        · simp at heq
  case Xml.isFalse => simp at hstore
  all_goals (
    first
    | simp at hstore
    | (rcases hw : open_write_file fs p with ⟨res, fs1⟩
       rw [hw] at hstore
       cases res
       · simp at hstore
       · rw [henc] at hstore
         obtain ⟨-, h2⟩ := Prod.mk.injEq .. ▸ hstore
         subst h2
         simp [write_all, setFile]))

/-- Claim C8: if the codec round-trips a record (encode succeeds and
decoding the encoding restores the record), then after a successful
`store` to a path whose extension resolves to a format, `load` on the
resulting filesystem reconstructs the record. -/
theorem C8_round_trip {α : Type} (codec : Codec α) (feats : Features)
    (fs fs2 : FS) (p : FsPath) (t : ConfigFormat) (r : α) (s : String)
    (henc : codec.encode t r = Except.ok s)
    (hdec : codec.decode t s = Except.ok r)
    (hres : ConfigFormat.from_path feats p = some t)
    (hstore : store codec feats r p fs = (Except.ok (), fs2)) :
    load codec feats fs2 p = Except.ok (some r) := by
  have ht := enabled_of_from_path hres
  simp only [store, hres] at hstore
  have hfiles : fs2.files p = FileState.present s := store_ok_files henc hstore
  simp only [load, hres]
  cases t <;>
    simp_all [Features.enabled, load_with_specific_format, open_file,
      not_found_to_none]

/-- Concrete run of C8: storing 42 to `a/b/config.json` on the empty
filesystem and loading it back yields 42. -/
theorem C8_round_trip_witness :
    load natCodec allFeatures
      (store natCodec allFeatures 42 pJson fsEmpty).2 pJson =
      Except.ok (some 42) :=
  C8_round_trip natCodec allFeatures fsEmpty
    (store natCodec allFeatures 42 pJson fsEmpty).2 pJson ConfigFormat.Json
    42 "42" rfl rfl (by decide) rfl
